import Mathlib

/-!
Verification development for `examples/hidden-states/hidden-states.cpp`.

The file shallowly embeds the hidden-states capture example: the ask/deliver
interception callback `ggml_eval_layer_output` (split here into the pure ask
predicate and the deliver step), the strided tensor walker and CSV row emitter
`ggml_print_tensor_to_csv`, the per-element decoder branch, and the startup
control flow of `main`.  Machine values are modelled as follows: bytes are
naturals taken mod 256, IEEE-754 float values are modelled semantically (a
finite float is the exact rational it denotes, infinities and NaN are separate
constructors), and the int-to-`float` conversions of the source are modelled
by `f32OfInt`, the round-to-nearest-ties-to-even conversion to a 24-bit
binary32 significand (proved exact for magnitudes below `2^24`, which covers
the 8- and 16-bit paths entirely).
-/

/-- Model-architecture tags (`llm_arch`): only the constructor the source
compares against (`LLM_ARCH_WAVTOKENIZER_DEC`) needs to be distinguished from
any other architecture, represented by `llama`. -/
inductive LlmArch where
  | llama
  | wavtokenizer_dec
  deriving DecidableEq, BEq

/-- Element-encoding tags (`ggml_type`), restricted to the tags the example can
meet: the five decodable tags, two block-quantized tags, and `bf16` as a
representative non-quantized tag that the decoder's final else-branch
(`GGML_ABORT`) rejects. -/
inductive GgmlType where
  | f32
  | f16
  | i8
  | i16
  | i32
  | bf16
  | q4_0
  | q8_0
  deriving DecidableEq, BEq

/-- Rank-4 vector of naturals, used for shape extents (`ne`), byte strides
(`nb`) and element multi-indices (`GGML_MAX_DIMS = 4`). -/
structure D4 where
  n0 : ℕ
  n1 : ℕ
  n2 : ℕ
  n3 : ℕ
  deriving DecidableEq

/-- Embedding of `ggml_is_quantized`: the block-quantized encoding tags. -/
def ggml_is_quantized : GgmlType → Bool
  | .q4_0 => true
  | .q8_0 => true
  | _ => false

/-- Embedding of `ggml_type_name` for the tags of the model. -/
def ggml_type_name : GgmlType → String
  | .f32 => "f32"
  | .f16 => "f16"
  | .i8 => "i8"
  | .i16 => "i16"
  | .i32 => "i32"
  | .bf16 => "bf16"
  | .q4_0 => "q4_0"
  | .q8_0 => "q8_0"

/-- TensorDescriptor: the metadata of one graph node at interception time
(name, encoding tag, operation label from `ggml_op_desc`, shape extents and
byte strides). -/
structure GgmlTensorMeta where
  name : String
  type : GgmlType
  op : String
  ne : D4
  nb : D4
  deriving DecidableEq

/-- Semantic value of a C `float`: a finite float is the exact rational it
denotes, an infinity carries its sign bit, NaN payloads are not distinguished. -/
inductive F32Val where
  | fin : ℚ → F32Val
  | inf : Bool → F32Val
  | nan : F32Val
  deriving DecidableEq

/-- Sign factor selected by a sign bit. -/
def sgn (s : ℕ) : ℚ := if s = 1 then -1 else 1

/-- Sign field of a 32-bit float bit pattern. -/
def f32_sign (w : ℕ) : ℕ := w / 2 ^ 31 % 2

/-- Exponent field of a 32-bit float bit pattern. -/
def f32_exp (w : ℕ) : ℕ := w / 2 ^ 23 % 2 ^ 8

/-- Mantissa field of a 32-bit float bit pattern. -/
def f32_mant (w : ℕ) : ℕ := w % 2 ^ 23

/-- Sign field of a 16-bit half-float bit pattern. -/
def f16_sign (h : ℕ) : ℕ := h / 2 ^ 15 % 2

/-- Exponent field of a 16-bit half-float bit pattern. -/
def f16_exp (h : ℕ) : ℕ := h / 2 ^ 10 % 2 ^ 5

/-- Mantissa field of a 16-bit half-float bit pattern. -/
def f16_mant (h : ℕ) : ℕ := h % 2 ^ 10

/-- IEEE-754 binary32 semantics of a bit pattern (the value of reinterpreting
those 32 bits as a C `float`). -/
def f32ValT (w : ℕ) : F32Val :=
  if f32_exp w = 255 then
    (if f32_mant w = 0 then F32Val.inf (f32_sign w == 1) else F32Val.nan)
  else if f32_exp w = 0 then
    F32Val.fin (sgn (f32_sign w) * (f32_mant w : ℚ) * (2 : ℚ) ^ (-(149 : ℤ)))
  else
    F32Val.fin (sgn (f32_sign w) * ((2 ^ 23 + f32_mant w : ℕ) : ℚ) *
      (2 : ℚ) ^ ((f32_exp w : ℤ) - 150))

/-- IEEE-754 binary16 semantics of a bit pattern. -/
def f16ValT (h : ℕ) : F32Val :=
  if f16_exp h = 31 then
    (if f16_mant h = 0 then F32Val.inf (f16_sign h == 1) else F32Val.nan)
  else if f16_exp h = 0 then
    F32Val.fin (sgn (f16_sign h) * (f16_mant h : ℚ) * (2 : ℚ) ^ (-(24 : ℤ)))
  else
    F32Val.fin (sgn (f16_sign h) * ((2 ^ 10 + f16_mant h : ℕ) : ℚ) *
      (2 : ℚ) ^ ((f16_exp h : ℤ) - 25))

/-- Modelled from the spec: `ggml_fp16_to_fp32`, the standard half-to-single
widening conversion (ggml library code, not under `src/`), expressed on bit
patterns.  Infinities and NaNs keep exponent field 255; normal halfs are
rebiased; subnormal halfs are normalized (the leading-bit position is
`Nat.log 2` of the mantissa). -/
def ggml_fp16_to_fp32 (h : ℕ) : ℕ :=
  if f16_exp h = 31 then
    f16_sign h * 2 ^ 31 + 255 * 2 ^ 23 + f16_mant h * 2 ^ 13
  else if f16_exp h = 0 then
    (if f16_mant h = 0 then
       f16_sign h * 2 ^ 31
     else
       f16_sign h * 2 ^ 31 + (103 + Nat.log 2 (f16_mant h)) * 2 ^ 23 +
         (f16_mant h - 2 ^ Nat.log 2 (f16_mant h)) * 2 ^ (23 - Nat.log 2 (f16_mant h)))
  else
    f16_sign h * 2 ^ 31 + (f16_exp h + 112) * 2 ^ 23 + f16_mant h * 2 ^ 13

/-- Little-endian read of `k` bytes of the data buffer starting at byte offset
`i` (the embedding of the pointer reinterpretation `*(T *) &data[i]`); each
buffer cell is taken mod 256 since it models one byte. -/
def leRead : ℕ → List ℕ → ℕ → ℕ
  | 0, _, _ => 0
  | k + 1, data, i => data.getD i 0 % 256 + 256 * leRead k data (i + 1)

/-- Two's-complement interpretation of the low `w` bits of a natural (the
sign-extension performed by reading through a signed-integer pointer). -/
def sext (w n : ℕ) : ℤ :=
  if n % 2 ^ w < 2 ^ (w - 1) then (n % 2 ^ w : ℤ) else (n % 2 ^ w : ℤ) - 2 ^ w

/-- Fuelled base-2 logarithm: `log2fuel f n` is the floor base-2 logarithm of
`n` provided `n ≤ f` (structural recursion on the fuel, so it evaluates in the
kernel, unlike `Nat.log`). -/
def log2fuel : ℕ → ℕ → ℕ
  | 0, _ => 0
  | f + 1, n => if n < 2 then 0 else log2fuel f (n / 2) + 1

/-- Floor base-2 logarithm in an evaluable form (`n` itself is enough fuel). -/
def log2n (n : ℕ) : ℕ := log2fuel n n

/-- Modelled from the spec / C semantics: the value of the int-to-`float`
conversion `(float)v` — binary32 keeps a 24-bit significand, so the magnitude
is rounded to nearest at granularity `2 ^ (bitlength - 24)`, ties to even;
the conversion is exact for `|v| ≤ 2^24` (`f32OfInt_exact`), and for `int32`
inputs the binary32 exponent range cannot overflow, so the result is always a
finite value. -/
def f32OfInt (v : ℤ) : ℚ :=
  let n := v.natAbs
  let k := log2n n - 23
  let q := n / 2 ^ k
  let r := n % 2 ^ k
  let q2 := if 2 * r < 2 ^ k then q
            else if 2 ^ k < 2 * r then q + 1
            else if q % 2 = 0 then q else q + 1
  (((if v < 0 then -(q2 * 2 ^ k : ℕ) else (q2 * 2 ^ k : ℕ) : ℤ)) : ℚ)

/-- Embedding of the per-element decoder branch of `ggml_print_tensor_to_csv`
(lines 71-85): dispatch on the encoding tag, read the element's bytes at byte
offset `i`, and produce the `float v`; `none` models `GGML_ABORT("fatal
error")` for unsupported tags. -/
def decodeElem (ty : GgmlType) (data : List ℕ) (i : ℕ) : Option F32Val :=
  match ty with
  | .f16 => some (f32ValT (ggml_fp16_to_fp32 (leRead 2 data i)))
  | .f32 => some (f32ValT (leRead 4 data i))
  | .i32 => some (F32Val.fin (f32OfInt (sext 32 (leRead 4 data i))))
  | .i16 => some (F32Val.fin (f32OfInt (sext 16 (leRead 2 data i))))
  | .i8 => some (F32Val.fin (f32OfInt (sext 8 (leRead 1 data i))))
  | _ => none

/-- The multi-index sequence of the four nested loops of
`ggml_print_tensor_to_csv` (lines 64-67): `i3` outermost/slowest varying, `i0`
innermost/fastest varying. -/
def walkerIndices (ne : D4) : List D4 :=
  (List.range ne.n3).flatMap fun i3 =>
    (List.range ne.n2).flatMap fun i2 =>
      (List.range ne.n1).flatMap fun i1 =>
        (List.range ne.n0).map fun i0 => ⟨i0, i1, i2, i3⟩

/-- Byte offset of a multi-index under the tensor's byte strides (line 68:
`i = i3*nb[3] + i2*nb[2] + i1*nb[1] + i0*nb[0]`). -/
def byteOffset (nb : D4) (ix : D4) : ℕ :=
  ix.n3 * nb.n3 + ix.n2 * nb.n2 + ix.n1 * nb.n1 + ix.n0 * nb.n0

/-- The byte-offset sequence the walker enumerates over a shape and strides. -/
def walkerOffsets (ne nb : D4) : List ℕ :=
  (walkerIndices ne).map (byteOffset nb)

/-- Row-major logical element index of a multi-index within a shape (the
claim-side "offset arithmetic scaled to float-element width", i.e. the element
number, stated from the spec for comparison with the source's byte offset). -/
def elemIndex (ne : D4) (ix : D4) : ℕ :=
  ix.n0 + ne.n0 * (ix.n1 + ne.n1 * (ix.n2 + ne.n2 * ix.n3))

/-- OutputRecord: one CSV data row in the fixed column order
`ID,name,type,operation,full_ne,curr_ne,value` (lines 96-101). -/
structure Row where
  id : ℕ
  name : String
  typeName : String
  op : String
  fullNe : D4
  currNe : D4
  value : F32Val
  deriving DecidableEq

/-- Loop body of `ggml_print_tensor_to_csv` for one multi-index: compute the
byte offset, read the value (from the bulk-dequantized parallel float buffer at
that same `i` when the tensor is block-quantized, else through the element
decoder), and emit one row.  `none` models the abort of the decoder. -/
def printRowAt (data : List ℕ) (dequant : List ℚ) (id : ℕ) (t : GgmlTensorMeta)
    (ix : D4) : Option Row :=
  let i := byteOffset t.nb ix
  (if ggml_is_quantized t.type then some (F32Val.fin (dequant.getD i 0))
   else decodeElem t.type data i).map fun v =>
    { id := id, name := t.name, typeName := ggml_type_name t.type, op := t.op
      fullNe := t.ne, currNe := ix, value := v }

/-- Sequential row emission: every multi-index produces its row, and a decoder
abort cancels the capture (no partial result is modelled, matching the
spec's all-or-nothing error design). -/
def rowsAux (f : D4 → Option Row) : List D4 → Option (List Row)
  | [] => some []
  | ix :: rest =>
    match f ix with
    | none => none
    | some r => (rowsAux f rest).map fun rs => r :: rs

/-- Embedding of `ggml_print_tensor_to_csv` (lines 52-109).  `data` is the
host-visible byte buffer, `dequant` models the parallel float buffer
`unquantized_data` produced by the numeric-format collaborator's bulk
`to_float` routine (library code, not under `src/`; it is only read when the
tensor is block-quantized), `id` is the sequence id stamped on every row. -/
def ggml_print_tensor_to_csv (data : List ℕ) (dequant : List ℚ) (id : ℕ)
    (t : GgmlTensorMeta) : Option (List Row) :=
  rowsAux (printRowAt data dequant id t) (walkerIndices t.ne)

/-- One delivered node instance: the descriptor plus the collaborator-reported
facts the deliver phase consults — host residency (`ggml_backend_buffer_is_host`),
the tensor's bytes once host-visible (for a device tensor these are the bytes
`ggml_backend_tensor_get` copies out), the bulk-dequantized parallel buffer,
and the byte footprint. -/
structure DeliverInst where
  t : GgmlTensorMeta
  isHost : Bool
  data : List ℕ
  dequant : List ℚ
  /-- Modelled from the spec: `ggml_nbytes`, the tensor's byte footprint
  (ggml library code, not under `src/`), carried as collaborator-supplied
  metadata. -/
  nbytes : ℕ
  deriving DecidableEq

/-- Mutable session state of the callback: the `static size_t id` sequence
counter and the capacity of the reusable `callback_data::data` scratch
vector. -/
structure CbState where
  id : ℕ
  cap : ℕ
  deriving DecidableEq

/-- Ask phase of `ggml_eval_layer_output` (lines 125-133), embedded faithfully:
note that the source's second architecture-specific check is
`std::strncmp(t->name, "convnext_out", 12)` with no `== 0`, so that disjunct is
true exactly when the name does NOT start with `convnext_out`. -/
def ggml_eval_ask (arch : LlmArch) (name : String) : Bool :=
  if "l_out".data.isPrefixOf name.data then true
  else if arch == .wavtokenizer_dec &&
      ("posnet_out".data.isPrefixOf name.data ||
        !("convnext_out".data.isPrefixOf name.data)) then true
  else false

/-- Claim-side ask predicate, stated from the spec's words: interested iff the
name matches the `l_out` layer-output naming convention, or, for the
`WAVTOKENIZER_DEC` family, iff it matches one of the two architecture-specific
output prefixes `posnet_out` / `convnext_out`. -/
def askSpecC1 (arch : LlmArch) (name : String) : Bool :=
  "l_out".data.isPrefixOf name.data ||
    (arch == .wavtokenizer_dec &&
      ("posnet_out".data.isPrefixOf name.data ||
        "convnext_out".data.isPrefixOf name.data))

/-- Deliver phase of `ggml_eval_layer_output` (lines 135-151): resize the
scratch buffer and copy when the tensor is not host-resident (a
`std::vector::resize` never lowers capacity, so capacity becomes the max of the
old capacity and the footprint), serialize through
`ggml_print_tensor_to_csv` only when the type is not block-quantized, then
increment the sequence counter unconditionally.  `none` models a decoder
abort. -/
def ggml_eval_deliver (st : CbState) (inst : DeliverInst) :
    Option (List Row × CbState) :=
  let cap := if inst.isHost then st.cap else max st.cap inst.nbytes
  (if ggml_is_quantized inst.t.type then some []
   else ggml_print_tensor_to_csv inst.data inst.dequant st.id inst.t).map
    fun rows => (rows, ⟨st.id + 1, cap⟩)

/-- Run the deliver phase over a sequence of accepted nodes, threading the
session state and grouping the rows of each interception event. -/
def runDelivers : CbState → List DeliverInst → Option (List (List Row))
  | _, [] => some []
  | st, inst :: rest =>
    match ggml_eval_deliver st inst with
    | none => none
    | some (rows, st1) => (runDelivers st1 rest).map fun gs => rows :: gs

/-- A capture session starts with the sequence counter at 0 (`static size_t
id = 0`) and an empty scratch vector. -/
def runSession (insts : List DeliverInst) : Option (List (List Row)) :=
  runDelivers ⟨0, 0⟩ insts

/-- Startup and exit control flow of `main` (lines 174-229), parameterized by
the outcomes of the external collaborators: argument parsing, opening the
output CSV, model/context initialization, and the inference run.  `emitted` is
the number of data rows the callback hands to the stream during the run.  The
result is (process exit code, whether graph execution was reached, data rows
actually written).  The source never checks whether `out_csv.open` succeeded; a
failed `std::ofstream` silently discards all writes. -/
def mainModel (parse_ok open_ok init_ok run_ok : Bool) (emitted : ℕ) :
    ℕ × Bool × ℕ :=
  if parse_ok = false then (1, false, 0)
  else if init_ok = false then (1, false, 0)
  else if run_ok = false then (1, true, if open_ok then emitted else 0)
  else (0, true, if open_ok then emitted else 0)

/-- Concrete non-quantized host-resident instance: a 1x1x1x1 int8 tensor whose
single byte is zero. -/
def inst0 : DeliverInst :=
  { t := { name := "l_out-3", type := .i8, op := "NONE", ne := ⟨1, 1, 1, 1⟩
           nb := ⟨1, 1, 1, 1⟩ }
    isHost := true, data := [0], dequant := [], nbytes := 1 }

/-- The single row `inst0` produces when delivered with sequence id 0. -/
def row0 : Row :=
  { id := 0, name := "l_out-3", typeName := "i8", op := "NONE"
    fullNe := ⟨1, 1, 1, 1⟩, currNe := ⟨0, 0, 0, 0⟩, value := F32Val.fin 0 }

/-- Concrete non-host (device-resident) instance, as `inst0` but requiring a
device-to-host copy. -/
def dinst : DeliverInst :=
  { t := { name := "l_out-9", type := .i8, op := "NONE", ne := ⟨1, 1, 1, 1⟩
           nb := ⟨1, 1, 1, 1⟩ }
    isHost := false, data := [0], dequant := [], nbytes := 1 }

/-- The single row `dinst` produces when delivered with sequence id 0. -/
def row9 : Row :=
  { id := 0, name := "l_out-9", typeName := "i8", op := "NONE"
    fullNe := ⟨1, 1, 1, 1⟩, currNe := ⟨0, 0, 0, 0⟩, value := F32Val.fin 0 }

/-- Concrete block-quantized instance: a Q8_0 row of 32 elements (block size
32, type size 34, so `nb = {34,34,34,34}` as `ggml_new_tensor` lays it out). -/
def qinstA : DeliverInst :=
  { t := { name := "l_out-5", type := .q8_0, op := "MUL_MAT", ne := ⟨32, 1, 1, 1⟩
           nb := ⟨34, 34, 34, 34⟩ }
    isHost := true, data := List.replicate 34 0, dequant := List.replicate 32 1
    nbytes := 34 }

/-- Second concrete block-quantized instance (same layout, distinct name). -/
def qinstB : DeliverInst :=
  { t := { name := "l_out-6", type := .q8_0, op := "MUL_MAT", ne := ⟨32, 1, 1, 1⟩
           nb := ⟨34, 34, 34, 34⟩ }
    isHost := true, data := List.replicate 34 0, dequant := List.replicate 32 1
    nbytes := 34 }

/-- Quantized descriptor for the decoder-indexing analysis: Q8_0, 32 elements. -/
def qmetaC2 : GgmlTensorMeta :=
  { name := "l_out-7", type := .q8_0, op := "MUL_MAT", ne := ⟨32, 1, 1, 1⟩
    nb := ⟨34, 34, 34, 34⟩ }

/-- A dequantized parallel buffer with pairwise distinct entries: entry `n`
holds the rational `n`. -/
def dequantC2 : List ℚ := (List.range 32).map fun n => (n : ℚ)

/-- Flattening a rectangular nest: binding a `k`-range over `m`-range maps is a
single map over the `k*m`-range, indexed by division and remainder. -/
theorem range_flatMap_map {α : Type} (k m : ℕ) (g : ℕ → ℕ → α) :
    ((List.range k).flatMap fun i => (List.range m).map (g i))
      = (List.range (k * m)).map fun n => g (n / m) (n % m) := by
  induction k with
  | zero => simp
  | succ k ih =>
    rw [List.range_succ, List.flatMap_append, ih, Nat.succ_mul, List.range_add,
      List.map_append, List.map_map]
    congr 1
    simp only [List.flatMap_cons, List.flatMap_nil, List.append_nil]
    refine (List.map_congr_left fun x hx => ?_).symm
    have hxm : x < m := List.mem_range.mp hx
    have hm : 0 < m := Nat.lt_of_le_of_lt (Nat.zero_le x) hxm
    simp only [Function.comp_apply]
    rw [mul_comm k m, Nat.mul_add_div hm, Nat.mul_add_mod, Nat.div_eq_of_lt hxm,
      Nat.mod_eq_of_lt hxm, Nat.add_zero]

/-- Closed form of the walker's index sequence: the `n`-th multi-index is the
mixed-radix decomposition of `n` with `i0` the fastest-varying digit and `i3`
the slowest. -/
theorem walkerIndices_eq (ne : D4) :
    walkerIndices ne =
      (List.range (ne.n3 * ne.n2 * ne.n1 * ne.n0)).map fun n =>
        ⟨n % ne.n0, n / ne.n0 % ne.n1, n / (ne.n0 * ne.n1) % ne.n2,
          n / (ne.n0 * ne.n1 * ne.n2)⟩ := by
  obtain ⟨a, b, c, d⟩ := ne
  show ((List.range d).flatMap fun i3 => (List.range c).flatMap fun i2 =>
      (List.range b).flatMap fun i1 => (List.range a).map fun i0 =>
        (⟨i0, i1, i2, i3⟩ : D4)) = _
  simp only [range_flatMap_map]
  rw [show d * (c * (b * a)) = d * c * b * a by ring]
  refine List.map_congr_left fun n _ => ?_
  have h1 : n % (c * (b * a)) % (b * a) = n % (b * a) :=
    Nat.mod_mod_of_dvd n (dvd_mul_left (b * a) c)
  have h2 : n % (b * a) % a = n % a := Nat.mod_mod_of_dvd n (dvd_mul_left a b)
  have h3 : n % (b * a) / a = n / a % b := by
    rw [mul_comm b a]; exact Nat.mod_mul_right_div_self n a b
  have h4 : n % (c * (b * a)) / (b * a) = n / (a * b) % c := by
    rw [mul_comm c (b * a)]
    rw [Nat.mod_mul_right_div_self n (b * a) c, mul_comm b a]
  have h5 : n / (c * (b * a)) = n / (a * b * c) := by
    rw [show c * (b * a) = a * b * c by ring]
  rw [h1, h2, h3, h4, h5]

/-- Length of the walker's index list is the product of the extents. -/
theorem walkerIndices_length (ne : D4) :
    (walkerIndices ne).length = ne.n0 * ne.n1 * ne.n2 * ne.n3 := by
  rw [walkerIndices_eq, List.length_map, List.length_range]
  ring

/-- Emitting rows for a list of indices preserves the count when no abort
occurs. -/
theorem rowsAux_length (f : D4 → Option Row) :
    ∀ {l : List D4} {res : List Row}, rowsAux f l = some res →
      res.length = l.length := by
  intro l
  induction l with
  | nil =>
    intro res h
    simp only [rowsAux, Option.some.injEq] at h
    rw [← h]
    rfl
  | cons ix rest ih =>
    intro res h
    simp only [rowsAux] at h
    cases hf : f ix with
    | none => rw [hf] at h; simp at h
    | some r =>
      rw [hf] at h
      simp only [Option.map_eq_some'] at h
      obtain ⟨rs, hrs, hres⟩ := h
      rw [← hres]
      simp [ih hrs]

/-- When every produced row projects through `g` to a function `c` of its
index, the emitted rows project to the mapped index list. -/
theorem rowsAux_map_col {β : Type} (f : D4 → Option Row) (g : Row → β)
    (c : D4 → β) (hc : ∀ ix r, f ix = some r → g r = c ix) :
    ∀ {l : List D4} {res : List Row}, rowsAux f l = some res →
      res.map g = l.map c := by
  intro l
  induction l with
  | nil =>
    intro res h
    simp only [rowsAux, Option.some.injEq] at h
    rw [← h]
    rfl
  | cons ix rest ih =>
    intro res h
    simp only [rowsAux] at h
    cases hf : f ix with
    | none => rw [hf] at h; simp at h
    | some r =>
      rw [hf] at h
      simp only [Option.map_eq_some'] at h
      obtain ⟨rs, hrs, hres⟩ := h
      rw [← hres]
      simp [ih hrs, hc ix r hf]

/-- Field decomposition of an assembled 32-bit float pattern. -/
theorem f32_fields (s E f : ℕ) (hs : s < 2) (hE : E < 256) (hf : f < 2 ^ 23) :
    f32_sign (s * 2 ^ 31 + E * 2 ^ 23 + f) = s ∧
    f32_exp (s * 2 ^ 31 + E * 2 ^ 23 + f) = E ∧
    f32_mant (s * 2 ^ 31 + E * 2 ^ 23 + f) = f := by
  unfold f32_sign f32_exp f32_mant
  refine ⟨by omega, by omega, by omega⟩

/-- Correctness of the modelled half-to-single conversion: widening preserves
the semantic value (finite halfs map to the exact same rational, infinities and
NaNs are preserved). -/
theorem fp16_widen_val (h : ℕ) : f32ValT (ggml_fp16_to_fp32 h) = f16ValT h := by
  have hs : f16_sign h < 2 := Nat.mod_lt _ (by norm_num)
  have he : f16_exp h < 32 := Nat.mod_lt _ (by norm_num)
  have hm : f16_mant h < 1024 := Nat.mod_lt _ (by norm_num)
  by_cases h31 : f16_exp h = 31
  · rw [ggml_fp16_to_fp32, if_pos h31]
    obtain ⟨e1, e2, e3⟩ :=
      f32_fields (f16_sign h) 255 (f16_mant h * 2 ^ 13) hs (by norm_num) (by omega)
    rw [f32ValT, e1, e2, e3, f16ValT, if_pos h31, if_pos rfl]
    by_cases hm0 : f16_mant h = 0
    · simp [hm0]
    · simp [hm0]
  · by_cases h0 : f16_exp h = 0
    · by_cases hm0 : f16_mant h = 0
      · rw [ggml_fp16_to_fp32, if_neg h31, if_pos h0, if_pos hm0]
        have hb : f16_sign h * 2 ^ 31 = f16_sign h * 2 ^ 31 + 0 * 2 ^ 23 + 0 := by
          ring
        rw [hb]
        obtain ⟨e1, e2, e3⟩ :=
          f32_fields (f16_sign h) 0 0 hs (by norm_num) (by norm_num)
        rw [f32ValT, e1, e2, e3, if_neg (by norm_num), if_pos rfl,
          f16ValT, if_neg h31, if_pos h0, hm0]
        norm_num
      · rw [ggml_fp16_to_fp32, if_neg h31, if_pos h0, if_neg hm0]
        have hL9 : Nat.log 2 (f16_mant h) < 10 :=
          Nat.log_lt_of_lt_pow hm0 (by omega)
        have hp1 : 2 ^ Nat.log 2 (f16_mant h) ≤ f16_mant h :=
          Nat.pow_log_le_self 2 hm0
        have hp2 : f16_mant h < 2 ^ (Nat.log 2 (f16_mant h) + 1) :=
          Nat.lt_pow_succ_log_self (by norm_num) _
        have hpow : (2 : ℕ) ^ (Nat.log 2 (f16_mant h) + 1) =
            2 * 2 ^ Nat.log 2 (f16_mant h) := by
          rw [pow_succ]; ring
        have hsub : f16_mant h - 2 ^ Nat.log 2 (f16_mant h) <
            2 ^ Nat.log 2 (f16_mant h) := by omega
        have hFlt : (f16_mant h - 2 ^ Nat.log 2 (f16_mant h)) *
            2 ^ (23 - Nat.log 2 (f16_mant h)) < 2 ^ 23 := by
          calc (f16_mant h - 2 ^ Nat.log 2 (f16_mant h)) *
              2 ^ (23 - Nat.log 2 (f16_mant h))
              < 2 ^ Nat.log 2 (f16_mant h) * 2 ^ (23 - Nat.log 2 (f16_mant h)) := by
                exact Nat.mul_lt_mul_of_lt_of_le hsub (le_refl _) (by positivity)
            _ = 2 ^ 23 := by rw [← pow_add]; congr 1; omega
        obtain ⟨e1, e2, e3⟩ :=
          f32_fields (f16_sign h) (103 + Nat.log 2 (f16_mant h))
            ((f16_mant h - 2 ^ Nat.log 2 (f16_mant h)) *
              2 ^ (23 - Nat.log 2 (f16_mant h))) hs (by omega) hFlt
        rw [f32ValT, e1, e2, e3, if_neg (by omega), if_neg (by omega),
          f16ValT, if_neg h31, if_pos h0]
        congr 1
        have hcomb : (2 : ℕ) ^ 23 +
            (f16_mant h - 2 ^ Nat.log 2 (f16_mant h)) *
              2 ^ (23 - Nat.log 2 (f16_mant h)) =
            2 ^ (23 - Nat.log 2 (f16_mant h)) * f16_mant h := by
          have h23 : (2 : ℕ) ^ 23 =
              2 ^ (23 - Nat.log 2 (f16_mant h)) * 2 ^ Nat.log 2 (f16_mant h) := by
            rw [← pow_add]; congr 1; omega
          rw [h23, mul_comm (f16_mant h - 2 ^ Nat.log 2 (f16_mant h))
            (2 ^ (23 - Nat.log 2 (f16_mant h))), ← Nat.mul_add]
          congr 1
          omega
        rw [hcomb]
        push_cast
        have hzc : ((23 - Nat.log 2 (f16_mant h) : ℕ) : ℤ) =
            23 - (Nat.log 2 (f16_mant h) : ℤ) := by omega
        have hzp : (2 : ℚ) ^ ((23 : ℕ) - Nat.log 2 (f16_mant h)) =
            (2 : ℚ) ^ (23 - (Nat.log 2 (f16_mant h) : ℤ)) := by
          rw [← zpow_natCast (2 : ℚ) (23 - Nat.log 2 (f16_mant h)), hzc]
        rw [hzp]
        have hcz : (2 : ℚ) ^ (23 - (Nat.log 2 (f16_mant h) : ℤ)) *
            (2 : ℚ) ^ ((103 + (Nat.log 2 (f16_mant h) : ℤ)) - 150) =
            (2 : ℚ) ^ (-(24 : ℤ)) := by
          rw [← zpow_add₀ (by norm_num : (2 : ℚ) ≠ 0)]
          congr 1
          ring
        calc sgn (f16_sign h) *
            ((2 : ℚ) ^ (23 - (Nat.log 2 (f16_mant h) : ℤ)) * (f16_mant h : ℚ)) *
              (2 : ℚ) ^ ((103 + (Nat.log 2 (f16_mant h) : ℤ)) - 150)
            = sgn (f16_sign h) * (f16_mant h : ℚ) *
              ((2 : ℚ) ^ (23 - (Nat.log 2 (f16_mant h) : ℤ)) *
                (2 : ℚ) ^ ((103 + (Nat.log 2 (f16_mant h) : ℤ)) - 150)) := by ring
          _ = sgn (f16_sign h) * (f16_mant h : ℚ) * (2 : ℚ) ^ (-(24 : ℤ)) := by
              rw [hcz]
    · rw [ggml_fp16_to_fp32, if_neg h31, if_neg h0]
      obtain ⟨e1, e2, e3⟩ :=
        f32_fields (f16_sign h) (f16_exp h + 112) (f16_mant h * 2 ^ 13) hs
          (by omega) (by omega)
      rw [f32ValT, e1, e2, e3, if_neg (by omega), if_neg (by omega),
        f16ValT, if_neg h31, if_neg h0]
      congr 1
      have hcomb : (2 : ℕ) ^ 23 + f16_mant h * 2 ^ 13 =
          2 ^ 13 * (2 ^ 10 + f16_mant h) := by ring
      rw [hcomb]
      push_cast
      have hcz : (2 : ℚ) ^ (13 : ℕ) *
          (2 : ℚ) ^ (((f16_exp h : ℤ) + 112) - 150) =
          (2 : ℚ) ^ ((f16_exp h : ℤ) - 25) := by
        rw [← zpow_natCast (2 : ℚ) 13, ← zpow_add₀ (by norm_num : (2 : ℚ) ≠ 0)]
        congr 1
        ring
      calc sgn (f16_sign h) *
          ((2 : ℚ) ^ (13 : ℕ) * ((2 : ℚ) ^ (10 : ℕ) + (f16_mant h : ℚ))) *
            (2 : ℚ) ^ (((f16_exp h : ℤ) + 112) - 150)
          = sgn (f16_sign h) * ((2 : ℚ) ^ (10 : ℕ) + (f16_mant h : ℚ)) *
            ((2 : ℚ) ^ (13 : ℕ) * (2 : ℚ) ^ (((f16_exp h : ℤ) + 112) - 150)) := by
            ring
        _ = sgn (f16_sign h) * ((2 : ℚ) ^ (10 : ℕ) + (f16_mant h : ℚ)) *
            (2 : ℚ) ^ ((f16_exp h : ℤ) - 25) := by rw [hcz]

/-- Upper bound for the fuelled logarithm: any fuel suffices for the bound
`log2fuel f n < m` whenever `n < 2 ^ m` and `1 ≤ m`. -/
theorem log2fuel_lt (f : ℕ) :
    ∀ n m : ℕ, 1 ≤ m → n < 2 ^ m → log2fuel f n < m := by
  induction f with
  | zero =>
    intro n m hm _
    simpa [log2fuel] using hm
  | succ f ih =>
    intro n m hm hn
    simp only [log2fuel]
    split
    · omega
    · rename_i hn2
      have hm2 : 2 ≤ m := by
        by_contra hc
        have hm1 : m = 1 := by omega
        subst hm1
        norm_num at hn
        omega
      have hp : (2 : ℕ) ^ m = 2 * 2 ^ (m - 1) := by
        conv_lhs => rw [show m = (m - 1) + 1 by omega]
        rw [pow_succ]
        ring
      have hstep : n / 2 < 2 ^ (m - 1) := by omega
      have := ih (n / 2) (m - 1) (by omega) hstep
      omega

/-- Upper bound for `log2n`. -/
theorem log2n_lt (n m : ℕ) (hm : 1 ≤ m) (h : n < 2 ^ m) : log2n n < m :=
  log2fuel_lt n n m hm h

/-- The magnitude of a `w`-bit sign-extended value is at most `2 ^ (w - 1)`. -/
theorem sext_natAbs_le (w x : ℕ) (hw : 1 ≤ w) :
    (sext w x).natAbs ≤ 2 ^ (w - 1) := by
  have hr : x % 2 ^ w < 2 ^ w := Nat.mod_lt _ (by positivity)
  have hp : (2 : ℕ) ^ w = 2 * 2 ^ (w - 1) := by
    conv_lhs => rw [show w = (w - 1) + 1 by omega]
    rw [pow_succ]
    ring
  have hcast : (2 : ℤ) ^ w = ((2 ^ w : ℕ) : ℤ) := by push_cast; ring
  unfold sext
  rw [hcast]
  set r := x % 2 ^ w with hrdef
  have h1 : r < 2 ^ w := Nat.mod_lt _ (by positivity)
  split
  · rename_i hlt
    omega
  · rename_i hge
    omega

/-- The modelled int-to-binary32 conversion is exact for magnitudes below
`2 ^ 24` (the C cast does not round there). -/
theorem f32OfInt_exact (v : ℤ) (h : v.natAbs < 2 ^ 24) : f32OfInt v = (v : ℚ) := by
  have hk : log2n v.natAbs - 23 = 0 := by
    have := log2n_lt v.natAbs 24 (by norm_num) h
    omega
  have hshape : f32OfInt v =
      (((if v < 0 then -(v.natAbs : ℤ) else (v.natAbs : ℤ))) : ℚ) := by
    simp only [f32OfInt, hk, pow_zero, Nat.div_one, Nat.mod_one, mul_one]
    norm_num
  rw [hshape]
  split
  · rename_i hv
    exact_mod_cast show -(v.natAbs : ℤ) = v by omega
  · rename_i hv
    exact_mod_cast show ((v.natAbs : ℤ)) = v by omega

/-- C1: the Ask-phase predicate is claimed to accept exactly the recognized
layer-output prefix "l_out" plus, for the WAVTOKENIZER_DEC family, the two
architecture-specific prefixes "posnet_out" and "convnext_out", rejecting every
other name.  The source's second check lacks the `== 0` comparison on
`strncmp(t->name, "convnext_out", 12)`, so under WAVTOKENIZER_DEC the code
accepts arbitrary names such as "attn_norm" and rejects names that do start
with "convnext_out" — this theorem evaluates both the embedded code and the
spec predicate at those failing inputs (and confirms the two non-architecture
scenarios). -/
theorem c1_ask_convnext_missing_cmp :
    ggml_eval_ask .wavtokenizer_dec "attn_norm" = true ∧
    askSpecC1 .wavtokenizer_dec "attn_norm" = false ∧
    ggml_eval_ask .wavtokenizer_dec "convnext_out-1" = false ∧
    askSpecC1 .wavtokenizer_dec "convnext_out-1" = true ∧
    ggml_eval_ask .llama "l_out-3" = true ∧
    ggml_eval_ask .llama "attn_norm" = false ∧
    askSpecC1 .llama "l_out-3" = true ∧
    askSpecC1 .llama "attn_norm" = false := by
  refine ⟨rfl, rfl, rfl, rfl, rfl, rfl, rfl, rfl⟩

/-- C2: for a block-quantized tensor the claim says the walker reads the bulk
dequantized parallel float buffer at the element index; the source instead
indexes it with the raw byte offset (`unquantized_data[i]` with
`i = i3*nb[3]+...+i0*nb[0]`).  Concretely, for a Q8_0 row of 32 elements the
element `{1,0,0,0}` has element index 1 (claim-side value `dequant[1] = 1`) but
the code reads float index 34 — past the end of the 32-entry buffer — so every
row after the first carries the out-of-range default instead of its element's
value. -/
theorem c2_quantized_indexing_bug :
    byteOffset qmetaC2.nb ⟨1, 0, 0, 0⟩ = 34 ∧
    elemIndex qmetaC2.ne ⟨1, 0, 0, 0⟩ = 1 ∧
    dequantC2.length = 32 ∧
    dequantC2.getD 1 0 = 1 ∧
    (ggml_print_tensor_to_csv (List.replicate 34 0) dequantC2 0 qmetaC2).map
        (fun rs => rs.map Row.value) =
      some (List.replicate 32 (F32Val.fin 0)) := by
  refine ⟨rfl, rfl, rfl, by decide, by decide⟩

/-- C4 counterexample: the claim says a failed open of the output destination
is reported and the process exits non-zero before graph execution; in the
source `out_csv.open` is never checked, so with parsing, initialization and the
run all succeeding but the open failing, the process runs the graph and exits
0 (writing zero data rows). -/
theorem c4_counterexample_open_failure_ignored :
    mainModel true false true true 5 = (0, true, 0) := rfl

/-- C4 amended: when the output destination cannot be opened the process does
not detect it — startup continues, graph execution proceeds, the failed stream
discards all data rows, and (when the rest succeeds) the process exits 0. -/
theorem c4_open_failure_behavior (emitted : ℕ) :
    mainModel true false true true emitted = (0, true, 0) := rfl

/-- C3 counterexample: delivering a block-quantized tensor serializes no rows
(the deliver phase skips the printer entirely) yet the `static size_t id`
counter still advances from 0 to 1, so "a Deliver invocation that serializes no
rows does not advance the counter" is false on the code. -/
theorem c3_counterexample_rowless_deliver_advances :
    ggml_eval_deliver ⟨0, 0⟩ qinstB = some ([], ⟨1, 0⟩) ∧ (1 : ℕ) ≠ 0 :=
  ⟨by decide, by decide⟩

/-- C3 amended: the sequence counter is monotonically increasing and never
reset, advancing by exactly one on every completed Deliver invocation —
whether or not that invocation serialized any rows (line 149 increments `id`
unconditionally). -/
theorem c3_counter_per_deliver (st : CbState) (inst : DeliverInst)
    (rows : List Row) (st1 : CbState)
    (h : ggml_eval_deliver st inst = some (rows, st1)) :
    st1.id = st.id + 1 := by
  simp only [ggml_eval_deliver, Option.map_eq_some'] at h
  obtain ⟨rows0, hrows, heq⟩ := h
  injection heq with h1 h2
  subst h2
  rfl

/-- C3 witness: the amended theorem applied at a concrete delivered tensor. -/
theorem c3_witness :
    ggml_eval_deliver ⟨0, 0⟩ inst0 = some ([row0], ⟨1, 0⟩) ∧
    (⟨1, 0⟩ : CbState).id = (⟨0, 0⟩ : CbState).id + 1 :=
  ⟨by decide, c3_counter_per_deliver ⟨0, 0⟩ inst0 [row0] ⟨1, 0⟩ (by decide)⟩

/-- C5 counterexample: a delivered block-quantized tensor (Q8_0, 32 elements)
is not dequantized-then-serialized as the claim states — the deliver phase
emits zero rows for it (line 144 guards the whole serialization behind
`!ggml_is_quantized`). -/
theorem c5_counterexample_quantized_not_serialized :
    ggml_is_quantized qinstA.t.type = true ∧
    qinstA.t.ne.n0 * qinstA.t.ne.n1 * qinstA.t.ne.n2 * qinstA.t.ne.n3 = 32 ∧
    ggml_eval_deliver ⟨5, 100⟩ qinstA = some ([], ⟨6, 100⟩) :=
  ⟨rfl, rfl, by decide⟩

/-- C5 amended: the Deliver phase skips decoding and serialization entirely for
every block-quantized tensor (emitting zero rows and only advancing the
counter and, when needed, the scratch buffer); only non-quantized tensors
reach the serializer. -/
theorem c5_quantized_deliver_skips (st : CbState) (inst : DeliverInst)
    (hq : ggml_is_quantized inst.t.type = true) :
    ggml_eval_deliver st inst =
      some ([], ⟨st.id + 1,
        if inst.isHost then st.cap else max st.cap inst.nbytes⟩) := by
  simp [ggml_eval_deliver, hq]

/-- C5 witness: the amended theorem applied at a concrete quantized tensor. -/
theorem c5_witness :
    ggml_is_quantized qinstB.t.type = true ∧
    ggml_eval_deliver ⟨2, 7⟩ qinstB =
      some ([], ⟨2 + 1, if qinstB.isHost then 7 else max 7 qinstB.nbytes⟩) :=
  ⟨rfl, c5_quantized_deliver_skips ⟨2, 7⟩ qinstB rfl⟩

/-- C6 counterexample: an intercepted (delivered) block-quantized tensor with
32 elements produces zero output rows, not `e0*e1*e2*e3 = 32` rows, so the
row-count invariant does not hold for every intercepted tensor. -/
theorem c6_counterexample_quantized_zero_rows :
    ggml_eval_deliver ⟨3, 50⟩ qinstA = some ([], ⟨4, 50⟩) ∧
    qinstA.t.ne.n0 * qinstA.t.ne.n1 * qinstA.t.ne.n2 * qinstA.t.ne.n3 = 32 ∧
    (0 : ℕ) ≠ 32 :=
  ⟨by decide, rfl, by decide⟩

/-- C6 amended: for every intercepted tensor that is not block-quantized, a
completed Deliver emits exactly `e0*e1*e2*e3` rows — one per logical element,
no omissions or duplicates, and in particular zero rows when any extent is
zero; intercepted block-quantized tensors instead emit zero rows. -/
theorem c6_rows_eq_extent_product (st : CbState) (inst : DeliverInst)
    (hq : ggml_is_quantized inst.t.type = false) (rows : List Row)
    (st1 : CbState) (hdel : ggml_eval_deliver st inst = some (rows, st1)) :
    rows.length = inst.t.ne.n0 * inst.t.ne.n1 * inst.t.ne.n2 * inst.t.ne.n3 := by
  simp only [ggml_eval_deliver, hq, Bool.false_eq_true, if_false,
    Option.map_eq_some'] at hdel
  obtain ⟨rows0, hrows, heq⟩ := hdel
  injection heq with h1 h2
  subst h1
  simp only [ggml_print_tensor_to_csv] at hrows
  rw [rowsAux_length _ hrows, walkerIndices_length]

/-- C6 witness: the amended theorem applied at a concrete float32 tensor. -/
theorem c6_witness :
    ggml_is_quantized inst0.t.type = false ∧
    ggml_eval_deliver ⟨0, 0⟩ inst0 = some ([row0], ⟨1, 0⟩) ∧
    [row0].length = inst0.t.ne.n0 * inst0.t.ne.n1 * inst0.t.ne.n2 * inst0.t.ne.n3 :=
  ⟨rfl, by decide,
    c6_rows_eq_extent_product ⟨0, 0⟩ inst0 rfl [row0] ⟨1, 0⟩ (by decide)⟩

/-- C7: the walker enumerates exactly the byte offsets
`i3*s3 + i2*s2 + i1*s1 + i0*s0` over all index combinations, with `i0` the
fastest-varying and `i3` the slowest-varying coordinate, as the deterministic
closed-form map over `range (e3*e2*e1*e0)` shows (the `n`-th offset is a fixed
function of `n`, so any two walks of the same shape/strides agree); and a
shape-(2,3,1,1) float32 tensor yields exactly 6 rows whose index column runs
from `{0,0,0,0}` to `{1,2,0,0}` in that order. -/
theorem c7_walker_enumeration :
    (∀ ne nb : D4,
        walkerOffsets ne nb =
          (List.range (ne.n3 * ne.n2 * ne.n1 * ne.n0)).map fun n =>
            n / (ne.n0 * ne.n1 * ne.n2) * nb.n3 +
              n / (ne.n0 * ne.n1) % ne.n2 * nb.n2 +
              n / ne.n0 % ne.n1 * nb.n1 + n % ne.n0 * nb.n0) ∧
    (ggml_print_tensor_to_csv (List.replicate 24 0) [] 5
          ⟨"l_out-0", .f32, "ADD", ⟨2, 3, 1, 1⟩, ⟨4, 8, 24, 24⟩⟩).map
        (fun rs => (rs.length, rs.map Row.currNe)) =
      some (6, [⟨0, 0, 0, 0⟩, ⟨1, 0, 0, 0⟩, ⟨0, 1, 0, 0⟩, ⟨1, 1, 0, 0⟩,
        ⟨0, 2, 0, 0⟩, ⟨1, 2, 0, 0⟩]) := by
  constructor
  · intro ne nb
    rw [walkerOffsets, walkerIndices_eq, List.map_map]
    rfl
  · decide

/-- C8 counterexample: delivering a host-resident tensor never touches the
scratch buffer, so after that Deliver step the capacity (0) is below the
tensor's byte footprint (4) — the capacity invariant of the claim fails for
host tensors. -/
theorem c8_counterexample_host_cap_below_footprint :
    inst0.isHost = true ∧ inst0.nbytes = 1 ∧
    ggml_eval_deliver ⟨0, 0⟩ inst0 = some ([row0], ⟨1, 0⟩) ∧ (0 : ℕ) < 1 :=
  ⟨rfl, rfl, by decide, by decide⟩

/-- C8 amended: the scratch buffer's capacity never shrinks across Deliver
steps, and after any Deliver step whose tensor was not host-resident (i.e.
whose bytes were actually copied into the scratch buffer) the capacity is at
least that tensor's byte footprint. -/
theorem c8_scratch_capacity (st : CbState) (inst : DeliverInst)
    (rows : List Row) (st1 : CbState)
    (h : ggml_eval_deliver st inst = some (rows, st1)) :
    st.cap ≤ st1.cap ∧ (inst.isHost = false → inst.nbytes ≤ st1.cap) := by
  simp only [ggml_eval_deliver, Option.map_eq_some'] at h
  obtain ⟨rows0, hrows, heq⟩ := h
  injection heq with h1 h2
  subst h2
  constructor
  · cases hh : inst.isHost
    · simp [hh, le_max_left]
    · simp [hh]
  · intro hh
    simp [hh, le_max_right]

/-- C8 witness: the amended theorem applied at a concrete device-resident
tensor. -/
theorem c8_witness :
    ggml_eval_deliver ⟨0, 0⟩ dinst = some ([row9], ⟨1, 1⟩) ∧
    ((⟨0, 0⟩ : CbState).cap ≤ (⟨1, 1⟩ : CbState).cap ∧
      (dinst.isHost = false → dinst.nbytes ≤ (⟨1, 1⟩ : CbState).cap)) :=
  ⟨by decide, c8_scratch_capacity ⟨0, 0⟩ dinst [row9] ⟨1, 1⟩ (by decide)⟩

/-- C9: the element decoder reads exactly the bytes at the walker's byte
offset and converts them per tag — the float32 tag yields the semantic value
of reinterpreting those 4 bytes as a 32-bit float (bit-identical
reinterpretation), the float16 tag yields the standard half-to-single widening
of those 2 bytes (the widening preserves the half's semantic value, by
`fp16_widen_val`), and the 8/16/32-bit signed integer tags yield the
sign-extended (two's-complement) integer converted to float — the int8 and
int16 paths exactly (their magnitudes fit the 24-bit significand, by
`f32OfInt_exact`), the int32 path through the rounding binary32 conversion
`f32OfInt`. -/
theorem c9_element_decoder (data : List ℕ) (i : ℕ) :
    decodeElem .f32 data i = some (f32ValT (leRead 4 data i)) ∧
    decodeElem .f16 data i = some (f16ValT (leRead 2 data i)) ∧
    decodeElem .i8 data i = some (F32Val.fin ((sext 8 (leRead 1 data i) : ℤ) : ℚ)) ∧
    decodeElem .i16 data i = some (F32Val.fin ((sext 16 (leRead 2 data i) : ℤ) : ℚ)) ∧
    decodeElem .i32 data i = some (F32Val.fin (f32OfInt (sext 32 (leRead 4 data i)))) := by
  refine ⟨rfl, congrArg some (fp16_widen_val (leRead 2 data i)), ?_, ?_, rfl⟩
  · show some (F32Val.fin (f32OfInt (sext 8 (leRead 1 data i)))) = _
    rw [f32OfInt_exact _ (by
      have := sext_natAbs_le 8 (leRead 1 data i) (by norm_num)
      omega)]
  · show some (F32Val.fin (f32OfInt (sext 16 (leRead 2 data i)))) = _
    rw [f32OfInt_exact _ (by
      have := sext_natAbs_le 16 (leRead 2 data i) (by norm_num)
      omega)]

/-- Helper: every row a deliver step emits is stamped with the sequence id the
session held when that step began. -/
theorem deliver_row_ids (st : CbState) (inst : DeliverInst) (rows : List Row)
    (st1 : CbState) (h : ggml_eval_deliver st inst = some (rows, st1)) :
    rows.map Row.id = List.replicate rows.length st.id := by
  simp only [ggml_eval_deliver, Option.map_eq_some'] at h
  obtain ⟨rows0, hrows, heq⟩ := h
  have h1 : rows0 = rows := congrArg Prod.fst heq
  rw [← h1]
  cases hq : ggml_is_quantized inst.t.type
  · rw [hq] at hrows
    simp only [Bool.false_eq_true, if_false, ggml_print_tensor_to_csv] at hrows
    have hmap := rowsAux_map_col (printRowAt inst.data inst.dequant st.id inst.t)
      Row.id (fun _ => st.id) ?_ hrows
    · rw [hmap, rowsAux_length _ hrows]
      exact List.map_const' _ _
    · intro ix r hr
      simp only [printRowAt, Option.map_eq_some'] at hr
      obtain ⟨v, hv1, hv2⟩ := hr
      rw [← hv2]
  · rw [hq] at hrows
    simp only [if_true, Option.some.injEq] at hrows
    rw [← hrows]
    rfl

/-- C10: all rows emitted for a single delivered tensor carry the same
sequence id (the id the session held when that Deliver began), and a session
starts its counter at 0, so the rows of the first Deliver of a session are all
stamped 0 — ids identify delivered-node instances in 0-based order. -/
theorem c10_sequence_ids :
    (∀ (st : CbState) (inst : DeliverInst) (rows : List Row) (st1 : CbState),
        ggml_eval_deliver st inst = some (rows, st1) →
        rows.map Row.id = List.replicate rows.length st.id) ∧
    (∀ (inst : DeliverInst) (rest : List DeliverInst)
        (groups : List (List Row)),
        runSession (inst :: rest) = some groups →
        ∃ rows st1, ggml_eval_deliver ⟨0, 0⟩ inst = some (rows, st1) ∧
          groups.head? = some rows ∧
          rows.map Row.id = List.replicate rows.length 0) := by
  refine ⟨deliver_row_ids, ?_⟩
  intro inst rest groups h
  simp only [runSession, runDelivers] at h
  cases hd : ggml_eval_deliver ⟨0, 0⟩ inst with
  | none => rw [hd] at h; simp at h
  | some p =>
    obtain ⟨rows, st1⟩ := p
    rw [hd] at h
    simp only [Option.map_eq_some'] at h
    obtain ⟨gs, hgs, hg⟩ := h
    refine ⟨rows, st1, rfl, ?_, deliver_row_ids ⟨0, 0⟩ inst rows st1 hd⟩
    rw [← hg]
    rfl

/-- C10 witness: both parts applied at a concrete one-tensor session. -/
theorem c10_witness :
    ([row0].map Row.id = List.replicate [row0].length (⟨0, 0⟩ : CbState).id) ∧
    (∃ rows st1, ggml_eval_deliver ⟨0, 0⟩ inst0 = some (rows, st1) ∧
      [[row0]].head? = some rows ∧
      rows.map Row.id = List.replicate rows.length 0) :=
  ⟨c10_sequence_ids.1 ⟨0, 0⟩ inst0 [row0] ⟨1, 0⟩ (by decide),
   c10_sequence_ids.2 inst0 [] [[row0]] (by decide)⟩

/-- C4 witness: the amended behavior evaluated at a concrete emitted count. -/
theorem c4_witness : mainModel true false true true 7 = (0, true, 0) :=
  c4_open_failure_behavior 7

/-- C9 witness: the decoder dispatch evaluated at a concrete buffer and
offset, plus concrete evaluations of the modelled conversion showing it
rounds to nearest-even above `2^24` (16777217 becomes 16777216, as the C
`(float)` cast does) and is exact at and below `2^24`. -/
theorem c9_witness :
    (decodeElem .f32 [0, 0, 0, 0] 0 = some (f32ValT (leRead 4 [0, 0, 0, 0] 0)) ∧
      decodeElem .f16 [0, 0, 0, 0] 0 = some (f16ValT (leRead 2 [0, 0, 0, 0] 0)) ∧
      decodeElem .i8 [0, 0, 0, 0] 0 =
        some (F32Val.fin ((sext 8 (leRead 1 [0, 0, 0, 0] 0) : ℤ) : ℚ)) ∧
      decodeElem .i16 [0, 0, 0, 0] 0 =
        some (F32Val.fin ((sext 16 (leRead 2 [0, 0, 0, 0] 0) : ℤ) : ℚ)) ∧
      decodeElem .i32 [0, 0, 0, 0] 0 =
        some (F32Val.fin (f32OfInt (sext 32 (leRead 4 [0, 0, 0, 0] 0))))) ∧
    f32OfInt 16777217 = 16777216 ∧
    f32OfInt 16777219 = 16777220 ∧
    f32OfInt 16777216 = 16777216 ∧
    f32OfInt (-16777217) = -16777216 ∧
    f32OfInt (-130) = -130 :=
  ⟨c9_element_decoder [0, 0, 0, 0] 0, by decide, by decide, by decide,
    by decide, by decide⟩
